import Mathlib

/-!
Verification of the scoreboard-statistics core of `main.py`: row parsing,
the raw per-match store, greedy identity resolution by Levenshtein
distance, the recent-match activity filter, and the averages aggregator.

Conventions of the embedding:
* Python dicts (which preserve insertion order) are association lists.
* Python tuples `(place, kills, deaths, assists, treasury, score)` are the
  structure `StatTuple`.
* Machine text is `String` / `List Char`; the character classes `\d`, `\s`,
  `\w` of the row regex are modelled over their ASCII ranges.
* Averages are exact rationals; `round(x, 2)` is modelled as exact
  half-to-even rounding at two decimals.
-/

/-! ### Character classes (ASCII model of the regex classes) -/

def isSpaceChar (c : Char) : Bool :=
  c.toNat = 32 || c.toNat = 9 || c.toNat = 10 || c.toNat = 11 || c.toNat = 12 || c.toNat = 13

def isDigitChar (c : Char) : Bool :=
  48 ≤ c.toNat && c.toNat ≤ 57

def isWordChar (c : Char) : Bool :=
  isDigitChar c || (65 ≤ c.toNat && c.toNat ≤ 90) || (97 ≤ c.toNat && c.toNat ≤ 122) ||
    c.toNat = 95

/-- Character class `[\w\s.-]` of the nickname group. -/
def isNameChar (c : Char) : Bool :=
  isWordChar c || isSpaceChar c || c.toNat = 46 || c.toNat = 45

/-- Value of a digit string, as Python's `int` on a matched `(\d+)` group. -/
def natDigits (cs : List Char) : Nat :=
  cs.foldl (fun n c => 10 * n + (c.toNat - 48)) 0

/-- Python's `str.strip` on a character list. -/
def trimChars (cs : List Char) : List Char :=
  ((cs.dropWhile isSpaceChar).reverse.dropWhile isSpaceChar).reverse

/-- Python's `str.split(sep)` for a one-character separator. -/
def splitOnChar (sep : Char) : List Char → List (List Char)
  | [] => [[]]
  | c :: cs =>
    if c = sep then [] :: splitOnChar sep cs
    else
      match splitOnChar sep cs with
      | [] => [[c]]
      | l :: ls => (c :: l) :: ls

/-! ### Levenshtein distance (`Levenshtein.distance` with unit costs) -/

/-- Textbook Levenshtein recurrence; the fuel argument only forces structural
termination and never runs out when initialised with the total length. -/
def levFuel : Nat → List Char → List Char → Nat
  | 0, xs, ys => xs.length + ys.length
  | _ + 1, [], ys => ys.length
  | _ + 1, x :: xs, [] => (x :: xs).length
  | f + 1, x :: xs, y :: ys =>
    if x = y then levFuel f xs ys
    else 1 + min (levFuel f xs ys) (min (levFuel f (x :: xs) ys) (levFuel f xs (y :: ys)))

def levDist (a b : String) : Nat :=
  levFuel (a.length + b.length) a.data b.data

/-- `MAX_DISTANCE` from `main.py`. -/
def MAX_DISTANCE : Nat := 3

/-! ### Data model -/

/-- One parsed scoreboard row. -/
structure MatchRecord where
  place : Nat
  nickname : String
  kills : Nat
  deaths : Nat
  assists : Nat
  treasury : Nat
  score : Nat
deriving DecidableEq

/-- The tuple `(place, kills, deaths, assists, treasury, score)` appended to
`grouped_data[name]` in `update_player_averages`. -/
structure StatTuple where
  place : Nat
  kills : Nat
  deaths : Nat
  assists : Nat
  treasury : Nat
  score : Nat
deriving DecidableEq

def MatchRecord.statTuple (r : MatchRecord) : StatTuple :=
  ⟨r.place, r.kills, r.deaths, r.assists, r.treasury, r.score⟩

/-- The raw store `raw_stats.json`: an insertion-ordered dict from `MatchId`
to the records of that match. -/
abbrev RawStore := List (String × List MatchRecord)

/-! ### The row regex `^\s*(\d+)\s+([\w\s.-]+?)\s+(\d+)\s+(\d+)\s+(\d+)\s+(\d+)\s+(\d+)`

The embedding reproduces the backtracking search of `re.match`:
the leading `(\d+)` and every trailing `\s+(\d+)` are forced (maximal munch
is the unique viable choice because the neighbouring classes are disjoint),
the `\s+` before the nickname backtracks from longest to shortest, and the
non-greedy nickname group grows from shortest to longest. -/

/-- One `\s+(\d+)` token: returns the digit group and the remainder. -/
def parseNumTok (cs : List Char) : Option (List Char × List Char) :=
  let sp := cs.takeWhile isSpaceChar
  let r1 := cs.dropWhile isSpaceChar
  let ds := r1.takeWhile isDigitChar
  let r2 := r1.dropWhile isDigitChar
  if sp.isEmpty || ds.isEmpty then none else some (ds, r2)

/-- The five `\s+(\d+)` groups after the nickname. -/
def parseTail5 (cs : List Char) :
    Option (List Char × List Char × List Char × List Char × List Char) :=
  match parseNumTok cs with
  | none => none
  | some (d1, r1) =>
    match parseNumTok r1 with
    | none => none
    | some (d2, r2) =>
      match parseNumTok r2 with
      | none => none
      | some (d3, r3) =>
        match parseNumTok r3 with
        | none => none
        | some (d4, r4) =>
          match parseNumTok r4 with
          | none => none
          | some (d5, _) => some (d1, d2, d3, d4, d5)

/-- Non-greedy nickname group: extend the name one class character at a
time, attempting the five-number tail at each length. -/
def findName (acc : List Char) :
    List Char → Option (List Char × (List Char × List Char × List Char × List Char × List Char))
  | [] => none
  | c :: rest =>
    if isNameChar c then
      match parseTail5 rest with
      | some t => some (acc ++ [c], t)
      | none => findName (acc ++ [c]) rest
    else none

/-- Backtracking of the greedy `\s+` before the nickname: try consuming
`j, j-1, …, 1` whitespace characters. -/
def spaceSearch :
    Nat → List Char →
      Option (List Char × (List Char × List Char × List Char × List Char × List Char))
  | 0, _ => none
  | j + 1, r =>
    match findName [] (r.drop (j + 1)) with
    | some res => some res
    | none => spaceSearch j r

/-- `re.match` of the row pattern: the seven matched groups. -/
def matchRow (cs : List Char) :
    Option (List Char × List Char × List Char × List Char × List Char × List Char × List Char) :=
  let cs1 := cs.dropWhile isSpaceChar
  let g1 := cs1.takeWhile isDigitChar
  let r1 := cs1.dropWhile isDigitChar
  if g1.isEmpty then none
  else
    match spaceSearch (r1.takeWhile isSpaceChar).length r1 with
    | none => none
    | some (nm, d1, d2, d3, d4, d5) => some (g1, nm, d1, d2, d3, d4, d5)

/-- One line of `parse_and_store_data`: `re.match` on the stripped line,
`int` on the numeric groups and `.strip()` on the nickname group. -/
def parseLine (line : String) : Option MatchRecord :=
  match matchRow (trimChars line.data) with
  | none => none
  | some (g1, nm, d1, d2, d3, d4, d5) =>
    some ⟨natDigits g1, String.mk (trimChars nm), natDigits d1, natDigits d2, natDigits d3,
      natDigits d4, natDigits d5⟩

/-- The records accepted from one OCR text blob:
`data.strip().split('\n')`, each line parsed, mismatches dropped. -/
def parsedRecords (data : String) : List MatchRecord :=
  (splitOnChar '\x0a' (trimChars data.data)).filterMap (fun l => parseLine (String.mk l))

/-- Python dict assignment `d[k] = v`: overwrite in place if the key exists,
otherwise append at the end. -/
def dictSet (store : RawStore) (k : String) (v : List MatchRecord) : RawStore :=
  if store.any (fun p => p.1 == k) then
    store.map (fun p => if p.1 == k then (k, v) else p)
  else store ++ [(k, v)]

/-- `parse_and_store_data`: stores the batch under `image_name` only when at
least one row matched, and returns the accepted-row count. -/
def parse_and_store_data (image_name : String) (data : String) (store : RawStore) :
    RawStore × Nat :=
  let recs := parsedRecords data
  (if recs.isEmpty then store else dictSet store image_name recs, recs.length)

/-! ### Store loading -/

/-- `read_json_db`: the file contents are `none` when the file is missing
(`FileNotFoundError`); `decode` abstracts `json.load`, returning `none` on
`JSONDecodeError`.  Both failure modes yield the empty store. -/
def read_json_db (contents : Option String) (decode : String → Option RawStore) : RawStore :=
  match contents with
  | none => []
  | some s =>
    match decode s with
    | none => []
    | some store => store

/-! ### Activity filter -/

def storeKeys (store : RawStore) : List String := store.map Prod.fst

/-- `raw_data_dict[filename]`, empty when absent (the code only looks up
keys taken from the dict itself). -/
def lookupStore (store : RawStore) (k : String) : List MatchRecord :=
  ((store.find? (fun p => p.1 == k)).map Prod.snd).getD []

/-- The digit prefix of a `MatchId` before the first `'-'`, as parsed by
`int(filename.split('-')[0])`. -/
def recencyKey (k : String) : Option Nat :=
  let pre := k.data.takeWhile (fun c => !(c == '-'))
  if pre.isEmpty || !(pre.all isDigitChar) then none else some (natDigits pre)

def prefixKey (k : String) : Nat := (recencyKey k).getD 0

/-- Descending numeric-prefix order used by
`all_known_files.sort(key=..., reverse=True)`. -/
def byPrefixDesc (a b : String) : Prop := prefixKey b ≤ prefixKey a

instance : DecidableRel byPrefixDesc := fun _ _ => Nat.decLe _ _

instance : IsTotal String byPrefixDesc := ⟨fun a b => Nat.le_total (prefixKey b) (prefixKey a)⟩

instance : IsTrans String byPrefixDesc := ⟨fun _ _ _ h1 h2 => Nat.le_trans h2 h1⟩

/-- The 10 most recent match ids (Python's stable sort, descending by
numeric prefix, then `[:10]`). -/
def recentFiles (store : RawStore) : List String :=
  (List.insertionSort byPrefixDesc (storeKeys store)).take 10

/-- The nicknames appearing in the 10 most recent matches. -/
def activeNicknames (store : RawStore) : List String :=
  (recentFiles store).flatMap (fun f => (lookupStore store f).map MatchRecord.nickname)

/-- The activity test applied to a canonical nickname: some active nickname
is within `MAX_DISTANCE`. -/
def isActive (active : List String) (name : String) : Bool :=
  active.any (fun a => decide (levDist name a ≤ MAX_DISTANCE))

/-! ### Identity resolution (greedy first-fit clustering) -/

abbrev Grouped := List (String × List StatTuple)

/-- One iteration of the clustering loop: append the stat tuple to the first
canonical nickname within `MAX_DISTANCE`, else open a new identity. -/
def assignRecord (g : Grouped) (nick : String) (st : StatTuple) : Grouped :=
  match g with
  | [] => [(nick, [st])]
  | (name, sl) :: rest =>
    if levDist nick name ≤ MAX_DISTANCE then (name, sl ++ [st]) :: rest
    else (name, sl) :: assignRecord rest nick st

/-- `grouped_data` built over all records in storage insertion order. -/
def groupRecords (records : List MatchRecord) : Grouped :=
  records.foldl (fun g r => assignRecord g r.nickname r.statTuple) []

/-- All records of all matches, grouped by match in storage insertion
order (`raw_data_dict.values()` flattened). -/
def allStats (store : RawStore) : List MatchRecord :=
  (store.map Prod.snd).flatten

/-- The same first-fit fold, recording the member nicknames attributed to
each canonical identity instead of their stat tuples. -/
def assignNick (g : List (String × List String)) (nick : String) :
    List (String × List String) :=
  match g with
  | [] => [(nick, [nick])]
  | (name, ns) :: rest =>
    if levDist nick name ≤ MAX_DISTANCE then (name, ns ++ [nick]) :: rest
    else (name, ns) :: assignNick rest nick

def groupNicks (records : List MatchRecord) : List (String × List String) :=
  records.foldl (fun g r => assignNick g r.nickname) []

/-! ### Aggregation -/

/-- Python's `round` to an integer: half-to-even. -/
def roundHalfEven (q : ℚ) : ℤ :=
  let n := ⌊q⌋
  let f := q - (n : ℚ)
  if f < 1 / 2 then n else if 1 / 2 < f then n + 1 else if 2 ∣ n then n else n + 1

/-- Python's `round(x, 2)`. -/
def round2 (q : ℚ) : ℚ := (roundHalfEven (q * 100) : ℚ) / 100

def colSum (f : StatTuple → Nat) (sl : List StatTuple) : Nat := (sl.map f).sum

/-- `sum(cols[i]) / games` as an exact rational. -/
def colMean (f : StatTuple → Nat) (sl : List StatTuple) : ℚ :=
  (colSum f sl : ℚ) / (sl.length : ℚ)

/-- One entry of `player_averages.json`. -/
structure PlayerAvg where
  games_played : Nat
  avg_place : ℤ
  kd : ℚ
  avg_kills : ℚ
  avg_deaths : ℚ
  avg_assists : ℚ
  avg_score : ℚ
deriving DecidableEq

/-- The statistics computed for one retained identity. -/
def computeAvg (sl : List StatTuple) : PlayerAvg :=
  let avg_kills := colMean StatTuple.kills sl
  let avg_deaths := colMean StatTuple.deaths sl
  { games_played := sl.length
    avg_place := roundHalfEven (colMean StatTuple.place sl)
    kd := if 0 < avg_deaths then round2 (avg_kills / avg_deaths) else avg_kills
    avg_kills := round2 avg_kills
    avg_deaths := round2 avg_deaths
    avg_assists := round2 (colMean StatTuple.assists sl)
    avg_score := round2 (colMean StatTuple.score sl) }

/-- `new_averages`: keep an identity when some active nickname is within
`MAX_DISTANCE` of its exemplar and it has at least `minGames` games. -/
def newAverages (minGames : Nat) (store : RawStore) : List (String × PlayerAvg) :=
  let active := activeNicknames store
  (groupRecords (allStats store)).filterMap (fun p =>
    if isActive active p.1 && decide (minGames ≤ p.2.length)
    then some (p.1, computeAvg p.2) else none)

def totalKills (store : RawStore) : Nat := ((allStats store).map MatchRecord.kills).sum

def totalDeaths (store : RawStore) : Nat := ((allStats store).map MatchRecord.deaths).sum

/-! ### The update entry point as a transition on the persisted files -/

/-- The two persisted JSON files. -/
structure SystemState where
  raw_stats : RawStore
  player_averages : List (String × PlayerAvg)
deriving DecidableEq

/-- Outcome of `update_player_averages`: either an early-return message or
the summary dict. -/
inductive UpdateResult where
  | noData (msg : String)
  | updated (players total_kills total_deaths : Nat)
deriving DecidableEq

/-- `update_player_averages` as a state transition.  The `Bool` component
records whether `write_json_db(PLAYER_AVERAGES_FILE, …)` was executed. -/
def update_player_averages (minGames : Nat) (s : SystemState) :
    SystemState × Bool × UpdateResult :=
  if s.raw_stats.isEmpty then
    (s, false, .noData "Сырых данных для анализа нет.")
  else if (allStats s.raw_stats).isEmpty then
    (s, false, .noData "Сырые данные пусты, анализ невозможен.")
  else
    let navg := newAverages minGames s.raw_stats
    (⟨s.raw_stats, navg⟩, true,
      .updated navg.length (totalKills s.raw_stats) (totalDeaths s.raw_stats))

/-! ### The spec-side row shape

`RowShape cs` says `cs` decomposes as the regex describes: optional leading
whitespace, a digit group, whitespace, a nonempty name over `[\w\s.-]`,
then five whitespace-separated digit groups, then anything. -/

def AllSpace (l : List Char) : Prop := ∀ c ∈ l, isSpaceChar c = true

def AllDigit (l : List Char) : Prop := ∀ c ∈ l, isDigitChar c = true

def AllName (l : List Char) : Prop := ∀ c ∈ l, isNameChar c = true

/-! ### Concrete stores used to instantiate the theorems -/

def mkRec (p : Nat) (n : String) (k d a t sc : Nat) : MatchRecord :=
  ⟨p, n, k, d, a, t, sc⟩

/-- Eleven stored matches: the oldest (`1-m.png`) holds the only records of
the identities `aaaa` and `eeee`; the ten recent matches hold only the
nickname `aeee`, which first-fit clustering attributes to `aaaa`. -/
def storeA : RawStore :=
  [("1-m.png", [mkRec 1 "aaaa" 5 1 0 0 50, mkRec 2 "eeee" 3 2 0 0 30]),
   ("2-m.png", [mkRec 1 "aeee" 2 1 0 0 20]),
   ("3-m.png", [mkRec 1 "aeee" 2 1 0 0 20]),
   ("4-m.png", [mkRec 1 "aeee" 2 1 0 0 20]),
   ("5-m.png", [mkRec 1 "aeee" 2 1 0 0 20]),
   ("6-m.png", [mkRec 1 "aeee" 2 1 0 0 20]),
   ("7-m.png", [mkRec 1 "aeee" 2 1 0 0 20]),
   ("8-m.png", [mkRec 1 "aeee" 2 1 0 0 20]),
   ("9-m.png", [mkRec 1 "aeee" 2 1 0 0 20]),
   ("10-m.png", [mkRec 1 "aeee" 2 1 0 0 20]),
   ("11-m.png", [mkRec 1 "aeee" 2 1 0 0 20])]

/-- Two stored matches with a two-game identity (`vortex`, absorbing the
OCR variant `v0rtex`) and a one-game identity (`solo`). -/
def storeB : RawStore :=
  [("1-a.png", [mkRec 1 "vortex" 10 2 0 0 100, mkRec 2 "solo" 1 1 0 0 10]),
   ("2-b.png", [mkRec 1 "v0rtex" 14 2 0 0 120])]

/-- The suffix `\s+(\d+)\s+(\d+)\s+(\d+)\s+(\d+)\s+(\d+)` of the shape,
with the five digit groups named. -/
def TailShapeAt (cs d1 d2 d3 d4 d5 : List Char) : Prop :=
  ∃ s2 s3 s4 s5 s6 rest : List Char,
    cs = s2 ++ d1 ++ s3 ++ d2 ++ s4 ++ d3 ++ s5 ++ d4 ++ s6 ++ d5 ++ rest ∧
    s2 ≠ [] ∧ AllSpace s2 ∧ d1 ≠ [] ∧ AllDigit d1 ∧
    s3 ≠ [] ∧ AllSpace s3 ∧ d2 ≠ [] ∧ AllDigit d2 ∧
    s4 ≠ [] ∧ AllSpace s4 ∧ d3 ≠ [] ∧ AllDigit d3 ∧
    s5 ≠ [] ∧ AllSpace s5 ∧ d4 ≠ [] ∧ AllDigit d4 ∧
    s6 ≠ [] ∧ AllSpace s6 ∧ d5 ≠ [] ∧ AllDigit d5

/-- `cs` decomposes along the row regex with the seven groups named. -/
def RowShapeAt (cs g1 nm d1 d2 d3 d4 d5 : List Char) : Prop :=
  ∃ s0 s1 tail : List Char,
    cs = s0 ++ g1 ++ s1 ++ nm ++ tail ∧
    AllSpace s0 ∧
    g1 ≠ [] ∧ AllDigit g1 ∧
    s1 ≠ [] ∧ AllSpace s1 ∧
    nm ≠ [] ∧ AllName nm ∧
    TailShapeAt tail d1 d2 d3 d4 d5

def RowShape (cs : List Char) : Prop :=
  ∃ g1 nm d1 d2 d3 d4 d5 : List Char, RowShapeAt cs g1 nm d1 d2 d3 d4 d5

/-! ## Theorems -/

/-- Claim C1: identity resolution is greedy first-fit.  A record's stat
tuple is appended to the first canonical nickname (in the mapping's current
insertion order) within Levenshtein distance `MAX_DISTANCE`; scanning stops
at that first match; if no canonical nickname is within distance
`MAX_DISTANCE`, the record's own nickname opens a new identity at the end;
and the clustering fold consumes records in storage insertion order. -/
theorem first_fit_resolution (g₁ g₂ : Grouped) (name nick : String)
    (sl : List StatTuple) (st : StatTuple) :
    ((∀ p ∈ g₁, MAX_DISTANCE < levDist nick p.1) → levDist nick name ≤ MAX_DISTANCE →
      assignRecord (g₁ ++ (name, sl) :: g₂) nick st = g₁ ++ (name, sl ++ [st]) :: g₂)
    ∧ (∀ g : Grouped, (∀ p ∈ g, MAX_DISTANCE < levDist nick p.1) →
      assignRecord g nick st = g ++ [(nick, [st])])
    ∧ (∀ (rs : List MatchRecord) (r : MatchRecord),
      groupRecords (rs ++ [r]) = assignRecord (groupRecords rs) r.nickname r.statTuple) := by
  refine ⟨?_, ?_, ?_⟩
  · intro h1 h2
    induction g₁ with
    | nil => simp [assignRecord, h2]
    | cons p rest ih =>
      obtain ⟨pn, psl⟩ := p
      have hp := h1 (pn, psl) (by simp)
      simp only [List.cons_append, assignRecord, if_neg (Nat.not_le.mpr hp), List.append_eq]
      rw [ih (fun q hq => h1 q (by simp [hq]))]
  · intro g hg
    induction g with
    | nil => simp [assignRecord]
    | cons p rest ih =>
      obtain ⟨pn, psl⟩ := p
      have hp := hg (pn, psl) (by simp)
      simp only [List.cons_append, assignRecord, if_neg (Nat.not_le.mpr hp), List.append_eq]
      rw [ih (fun q hq => hg q (by simp [hq]))]
  · intro rs r
    simp [groupRecords, List.foldl_append]

/-- Witness for C1 at concrete clusters and records. -/
theorem first_fit_resolution_witness :
    (∀ p ∈ ([("xxxxxxxx", [⟨1, 1, 1, 1, 1, 1⟩])] : Grouped),
      MAX_DISTANCE < levDist "aaab" p.1) ∧
    assignRecord ([("xxxxxxxx", [⟨1, 1, 1, 1, 1, 1⟩]), ("aaaa", [⟨2, 2, 2, 2, 2, 2⟩])] : Grouped)
        "aaab" ⟨3, 3, 3, 3, 3, 3⟩
      = [("xxxxxxxx", [⟨1, 1, 1, 1, 1, 1⟩]),
         ("aaaa", [⟨2, 2, 2, 2, 2, 2⟩, ⟨3, 3, 3, 3, 3, 3⟩])] ∧
    assignRecord ([("xxxxxxxx", [⟨1, 1, 1, 1, 1, 1⟩])] : Grouped) "zzzz" ⟨4, 4, 4, 4, 4, 4⟩
      = [("xxxxxxxx", [⟨1, 1, 1, 1, 1, 1⟩]), ("zzzz", [⟨4, 4, 4, 4, 4, 4⟩])] := by
  refine ⟨by decide, ?_, ?_⟩
  · exact (first_fit_resolution [("xxxxxxxx", [⟨1, 1, 1, 1, 1, 1⟩])] [] "aaaa" "aaab"
      [⟨2, 2, 2, 2, 2, 2⟩] ⟨3, 3, 3, 3, 3, 3⟩).1 (by decide) (by decide)
  · exact (first_fit_resolution [] [] "unused" "zzzz" [] ⟨4, 4, 4, 4, 4, 4⟩).2.1
      [("xxxxxxxx", [⟨1, 1, 1, 1, 1, 1⟩])] (by decide)

/-- Claim C4: for a retained identity, `kd` is the two-decimal rounding of
`avg_kills / avg_deaths` when the mean of the deaths column is positive,
and is exactly the unrounded mean of the kills column when the mean of the
deaths column is zero, while the reported `avg_kills` field is rounded. -/
theorem kd_fallback (sl : List StatTuple) :
    (0 < colMean StatTuple.deaths sl →
      (computeAvg sl).kd
        = round2 (colMean StatTuple.kills sl / colMean StatTuple.deaths sl))
    ∧ (colMean StatTuple.deaths sl = 0 →
      (computeAvg sl).kd = colMean StatTuple.kills sl
      ∧ (computeAvg sl).avg_kills = round2 (colMean StatTuple.kills sl)) := by
  constructor
  · intro h
    simp [computeAvg, if_pos h]
  · intro h
    exact ⟨by simp [computeAvg, h], by simp [computeAvg]⟩

/-- Witness for C4: three games, one kill, no deaths; `kd` is the exact
mean `1/3` while the reported `avg_kills` is the rounded `0.33`. -/
theorem kd_fallback_witness :
    colMean StatTuple.deaths [⟨1, 1, 0, 0, 0, 0⟩, ⟨2, 0, 0, 0, 0, 0⟩, ⟨3, 0, 0, 0, 0, 0⟩] = 0
    ∧ (computeAvg [⟨1, 1, 0, 0, 0, 0⟩, ⟨2, 0, 0, 0, 0, 0⟩, ⟨3, 0, 0, 0, 0, 0⟩]).kd = 1 / 3
    ∧ (computeAvg [⟨1, 1, 0, 0, 0, 0⟩, ⟨2, 0, 0, 0, 0, 0⟩, ⟨3, 0, 0, 0, 0, 0⟩]).avg_kills
        = 33 / 100 := by
  have h0 : colMean StatTuple.deaths
      [(⟨1, 1, 0, 0, 0, 0⟩ : StatTuple), ⟨2, 0, 0, 0, 0, 0⟩, ⟨3, 0, 0, 0, 0, 0⟩] = 0 := by
    norm_num [colMean, colSum]
  have hk : colMean StatTuple.kills
      [(⟨1, 1, 0, 0, 0, 0⟩ : StatTuple), ⟨2, 0, 0, 0, 0, 0⟩, ⟨3, 0, 0, 0, 0, 0⟩] = 1 / 3 := by
    norm_num [colMean, colSum]
  have h := (kd_fallback [⟨1, 1, 0, 0, 0, 0⟩, ⟨2, 0, 0, 0, 0, 0⟩, ⟨3, 0, 0, 0, 0, 0⟩]).2 h0
  refine ⟨h0, ?_, ?_⟩
  · rw [h.1, hk]
  · rw [h.2, hk]
    norm_num [round2, roundHalfEven]

/-- Claim C8: `read_json_db` yields the empty store both when the persisted
file is missing and when its contents fail to decode, instead of raising. -/
theorem store_load_failure :
    (∀ decode : String → Option RawStore, read_json_db none decode = [])
    ∧ (∀ (s : String) (decode : String → Option RawStore),
        decode s = none → read_json_db (some s) decode = []) := by
  refine ⟨fun _ => rfl, fun s decode h => ?_⟩
  simp [read_json_db, h]

/-- Witness for C8 with a decoder that rejects its input. -/
theorem store_load_failure_witness :
    read_json_db none (fun _ => none) = []
    ∧ read_json_db (some "not json") (fun _ => none) = [] :=
  ⟨store_load_failure.1 _, store_load_failure.2 "not json" _ rfl⟩

/-- Claim C9: running the full aggregation twice on an unchanged raw store
returns identical states and results; in particular the `PlayerAverages`
mappings coincide. -/
theorem aggregation_idempotent (m : Nat) (s : SystemState) :
    update_player_averages m (update_player_averages m s).1 = update_player_averages m s := by
  by_cases h1 : s.raw_stats.isEmpty
  · simp [update_player_averages, h1]
  · by_cases h2 : (allStats s.raw_stats).isEmpty
    · simp [update_player_averages, h1, h2]
    · simp [update_player_averages, h1, h2]

/-- Claim C10: with an empty raw store the update returns the no-data
message, performs no write and leaves the persisted averages untouched; a
write happens only for a non-empty raw store, and then installs the freshly
computed mapping. -/
theorem empty_store_atomicity (m : Nat) (s : SystemState) :
    (s.raw_stats = [] →
      update_player_averages m s = (s, false, .noData "Сырых данных для анализа нет."))
    ∧ (∀ (s' : SystemState) (w : Bool) (r : UpdateResult),
        update_player_averages m s = (s', w, r) →
        (w = false → s'.player_averages = s.player_averages)
        ∧ (w = true → s.raw_stats ≠ [] ∧ s'.player_averages = newAverages m s.raw_stats)) := by
  constructor
  · intro h
    simp [update_player_averages, h]
  · intro s' w r h
    by_cases h1 : s.raw_stats.isEmpty
    · simp [update_player_averages, h1] at h
      obtain ⟨hs, hw, _⟩ := h
      refine ⟨fun _ => by rw [← hs], fun hwt => absurd (hw ▸ hwt) (by simp)⟩
    · by_cases h2 : (allStats s.raw_stats).isEmpty
      · simp [update_player_averages, h1, h2] at h
        obtain ⟨hs, hw, _⟩ := h
        refine ⟨fun _ => by rw [← hs], fun hwt => absurd (hw ▸ hwt) (by simp)⟩
      · simp [update_player_averages, h1, h2] at h
        obtain ⟨hs, hw, _⟩ := h
        refine ⟨fun hwf => absurd (hw ▸ hwf) (by simp), fun _ => ?_⟩
        refine ⟨by simpa using h1, ?_⟩
        rw [← hs]

/-- Witness for C10: an empty raw store next to previously persisted
averages leaves them untouched and reports the no-data message. -/
theorem empty_store_atomicity_witness :
    update_player_averages 2 ⟨[], [("ghost", ⟨1, 2, 3, 4, 5, 6, 7⟩)]⟩
      = (⟨[], [("ghost", ⟨1, 2, 3, 4, 5, 6, 7⟩)]⟩, false,
          .noData "Сырых данных для анализа нет.") :=
  (empty_store_atomicity 2 ⟨[], [("ghost", ⟨1, 2, 3, 4, 5, 6, 7⟩)]⟩).1 rfl

/-! ### Keys of the clustering are distinct -/

theorem levFuel_self (f : Nat) (l : List Char) (h : l.length ≤ f) : levFuel f l l = 0 := by
  induction l generalizing f with
  | nil => cases f <;> simp [levFuel]
  | cons x xs ih =>
    cases f with
    | zero => simp at h
    | succ f' =>
      simp only [levFuel, if_pos rfl]
      exact ih f' (by simp only [List.length_cons] at h; omega)

theorem levDist_self (a : String) : levDist a a = 0 :=
  levFuel_self (a.length + a.length) a.data (Nat.le_add_right _ _)

theorem mem_keys_assignRecord {g : Grouped} {nick a : String} {st : StatTuple}
    (h : a ∈ (assignRecord g nick st).map Prod.fst) :
    a ∈ g.map Prod.fst ∨ a = nick := by
  induction g with
  | nil => simpa [assignRecord] using h
  | cons p rest ih =>
    obtain ⟨pn, psl⟩ := p
    by_cases hd : levDist nick pn ≤ MAX_DISTANCE
    · simp only [assignRecord, if_pos hd, List.map_cons, List.mem_cons] at h
      rcases h with h | h
      · exact Or.inl (by simp [h])
      · exact Or.inl (by simp [h])
    · simp only [assignRecord, if_neg hd, List.map_cons, List.mem_cons] at h
      rcases h with h | h
      · exact Or.inl (by simp [h])
      · rcases ih h with h' | h'
        · exact Or.inl (by simp [h'])
        · exact Or.inr h'

theorem nodup_keys_assignRecord {g : Grouped} (nick : String) (st : StatTuple)
    (h : (g.map Prod.fst).Nodup) : ((assignRecord g nick st).map Prod.fst).Nodup := by
  induction g with
  | nil => simp [assignRecord]
  | cons p rest ih =>
    obtain ⟨pn, psl⟩ := p
    simp only [List.map_cons, List.nodup_cons] at h
    by_cases hd : levDist nick pn ≤ MAX_DISTANCE
    · simp only [assignRecord, if_pos hd, List.map_cons, List.nodup_cons]
      exact ⟨h.1, h.2⟩
    · simp only [assignRecord, if_neg hd, List.map_cons, List.nodup_cons]
      refine ⟨fun hmem => ?_, ih h.2⟩
      rcases mem_keys_assignRecord hmem with h' | h'
      · exact h.1 h'
      · exact hd (by simp [h', levDist_self])

theorem nodup_keys_groupRecords (rs : List MatchRecord) :
    ((groupRecords rs).map Prod.fst).Nodup := by
  suffices h : ∀ (l : List MatchRecord) (g : Grouped), (g.map Prod.fst).Nodup →
      ((l.foldl (fun g r => assignRecord g r.nickname r.statTuple) g).map Prod.fst).Nodup by
    exact h rs [] (by simp)
  intro l
  induction l with
  | nil => intro g hg; simpa
  | cons r rest ih =>
    intro g hg
    exact ih _ (nodup_keys_assignRecord r.nickname r.statTuple hg)

theorem keys_nodup_assoc_unique {g : Grouped} {a : String} {b c : List StatTuple}
    (h : (g.map Prod.fst).Nodup) (hb : (a, b) ∈ g) (hc : (a, c) ∈ g) : b = c := by
  induction g with
  | nil => simp at hb
  | cons p rest ih =>
    simp only [List.map_cons, List.nodup_cons] at h
    rcases List.mem_cons.mp hb with hb' | hb' <;> rcases List.mem_cons.mp hc with hc' | hc'
    · rw [← hb'] at hc'
      exact (((Prod.mk.injEq _ _ _ _).mp hc').2).symm
    · exact absurd (by simpa [← hb'] using List.mem_map_of_mem Prod.fst hc') h.1
    · exact absurd (by simpa [← hc'] using List.mem_map_of_mem Prod.fst hb') h.1
    · exact ih h.2 hb' hc'

/-- Claim C5: for an active canonical identity, having exactly
`minGames - 1` attributed stat tuples excludes it from `PlayerAverages`
while exactly `minGames` includes it. -/
theorem min_games_boundary (store : RawStore) (minGames : Nat) (name : String)
    (sl : List StatTuple)
    (hmem : (name, sl) ∈ groupRecords (allStats store))
    (hact : isActive (activeNicknames store) name = true) :
    (sl.length + 1 = minGames → name ∉ (newAverages minGames store).map Prod.fst)
    ∧ (sl.length = minGames → name ∈ (newAverages minGames store).map Prod.fst) := by
  constructor
  · intro hlen hmem2
    simp only [newAverages, List.mem_map] at hmem2
    obtain ⟨q, hq, hq1⟩ := hmem2
    rw [List.mem_filterMap] at hq
    obtain ⟨p, hp, hfp⟩ := hq
    simp at hfp
    obtain ⟨⟨hactp, hgames⟩, hpq⟩ := hfp
    have hp1 : p.1 = name := by rw [← hpq] at hq1; simpa using hq1
    have hsl : p.2 = sl := by
      refine keys_nodup_assoc_unique (nodup_keys_groupRecords (allStats store)) ?_ hmem
      rw [← hp1]; exact hp
    rw [hsl] at hgames
    omega
  · intro hlen
    have hle : minGames ≤ sl.length := hlen.ge
    simp only [newAverages, List.mem_map]
    refine ⟨(name, computeAvg sl), ?_, rfl⟩
    rw [List.mem_filterMap]
    exact ⟨(name, sl), hmem, by simp [hact, hle]⟩

/-- Witness for C5 on `storeB` with `minGames = 2`: the two-game identity
`vortex` is included, the one-game identity `solo` is excluded. -/
theorem min_games_boundary_witness :
    (("vortex", [⟨1, 10, 2, 0, 0, 100⟩, ⟨1, 14, 2, 0, 0, 120⟩])
        ∈ groupRecords (allStats storeB))
    ∧ (("solo", [⟨2, 1, 1, 0, 0, 10⟩]) ∈ groupRecords (allStats storeB))
    ∧ "solo" ∉ (newAverages 2 storeB).map Prod.fst
    ∧ "vortex" ∈ (newAverages 2 storeB).map Prod.fst := by
  refine ⟨by decide, by decide, ?_, ?_⟩
  · exact (min_games_boundary storeB 2 "solo" [⟨2, 1, 1, 0, 0, 10⟩]
      (by decide) (by decide)).1 (by decide)
  · exact (min_games_boundary storeB 2 "vortex" [⟨1, 10, 2, 0, 0, 100⟩, ⟨1, 14, 2, 0, 0, 120⟩]
      (by decide) (by decide)).2 (by decide)

/-- Counterexample to claim C3 as stated: in `storeA` the canonical
identity `eeee` has the single member nickname `eeee`, which appears in
none of the 10 most recent matches, yet `eeee` is present in the computed
averages — the active nickname `aeee` was attributed by first-fit to the
distinct identity `aaaa` but still lies within distance 3 of the exemplar
`eeee`. -/
theorem activity_gating_counterexample :
    ("eeee", ["eeee"]) ∈ groupNicks (allStats storeA)
    ∧ (∀ n ∈ (["eeee"] : List String), n ∉ activeNicknames storeA)
    ∧ "eeee" ∈ (newAverages 1 storeA).map Prod.fst := by
  exact ⟨by decide, by decide, by decide⟩

/-- Claim C3 (amended): an identity is gated by the exemplar rule alone — a
canonical identity whose exemplar nickname is farther than Levenshtein
distance 3 from every nickname of the 10 most recent matches is absent
from `PlayerAverages`, regardless of historical game count; an identity
none of whose member nicknames is active can still be retained when some
other active nickname is within distance 3 of its exemplar. -/
theorem activity_gating_amended (store : RawStore) (minGames : Nat) (name : String)
    (h : ∀ a ∈ activeNicknames store, MAX_DISTANCE < levDist name a) :
    name ∉ (newAverages minGames store).map Prod.fst := by
  intro hmem
  simp only [newAverages, List.mem_map] at hmem
  obtain ⟨q, hq, hq1⟩ := hmem
  rw [List.mem_filterMap] at hq
  obtain ⟨p, _, hfp⟩ := hq
  simp at hfp
  obtain ⟨⟨hactp, _⟩, hpq⟩ := hfp
  have hp1 : p.1 = name := by rw [← hpq] at hq1; simpa using hq1
  rw [hp1] at hactp
  rw [isActive, List.any_eq_true] at hactp
  obtain ⟨a, ha, hd⟩ := hactp
  exact absurd (of_decide_eq_true hd) (Nat.not_le.mpr (h a ha))

/-- Witness for the amended C3: a name far from every active nickname of
`storeB` is absent from the averages. -/
theorem activity_gating_amended_witness :
    (∀ a ∈ activeNicknames storeB, MAX_DISTANCE < levDist "qqqqqqqq" a)
    ∧ "qqqqqqqq" ∉ (newAverages 1 storeB).map Prod.fst :=
  ⟨by decide, activity_gating_amended storeB 1 "qqqqqqqq" (by decide)⟩

/-- Claim C2: the active-nickname set is the union of the nicknames of the
10 matches with the largest numeric `MatchId` prefixes — there is a
selection of `min 10 n` stored keys, a permutation-split of all keys,
whose numeric prefixes dominate all unselected keys, such that a nickname
is active exactly when it occurs in a selected match's records. -/
theorem active_is_top_ten (store : RawStore)
    (_hp : ∀ k ∈ storeKeys store, (recencyKey k).isSome) :
    ∃ sel rest : List String,
      (sel ++ rest).Perm (storeKeys store)
      ∧ sel.length = min 10 (storeKeys store).length
      ∧ (∀ a ∈ sel, ∀ b ∈ rest, prefixKey b ≤ prefixKey a)
      ∧ (∀ n, n ∈ activeNicknames store ↔
          ∃ k ∈ sel, ∃ r ∈ lookupStore store k, r.nickname = n) := by
  refine ⟨recentFiles store,
    (List.insertionSort byPrefixDesc (storeKeys store)).drop 10, ?_, ?_, ?_, ?_⟩
  · rw [recentFiles, List.take_append_drop]
    exact List.perm_insertionSort byPrefixDesc (storeKeys store)
  · rw [recentFiles, List.length_take,
      (List.perm_insertionSort byPrefixDesc (storeKeys store)).length_eq]
  · have hs : List.Pairwise byPrefixDesc
        (List.insertionSort byPrefixDesc (storeKeys store)) :=
      List.sorted_insertionSort byPrefixDesc (storeKeys store)
    rw [← List.take_append_drop 10 (List.insertionSort byPrefixDesc (storeKeys store))] at hs
    exact fun a ha b hb => (List.pairwise_append.mp hs).2.2 a ha b hb
  · intro n
    simp [activeNicknames, List.mem_flatMap, List.mem_map]

/-- Witness for C2 on `storeB`, whose keys all carry numeric prefixes. -/
theorem active_is_top_ten_witness :
    (∀ k ∈ storeKeys storeB, (recencyKey k).isSome)
    ∧ ∃ sel rest : List String,
        (sel ++ rest).Perm (storeKeys storeB)
        ∧ sel.length = min 10 (storeKeys storeB).length
        ∧ (∀ a ∈ sel, ∀ b ∈ rest, prefixKey b ≤ prefixKey a)
        ∧ (∀ n, n ∈ activeNicknames storeB ↔
            ∃ k ∈ sel, ∃ r ∈ lookupStore storeB k, r.nickname = n) :=
  ⟨by decide, active_is_top_ten storeB (by decide)⟩

/-! ### Frame property of the store write -/

theorem find?_map_replace (store : RawStore) (img k : String) (v : List MatchRecord)
    (himg : (img == k) = false) :
    (store.map (fun p => if p.1 == img then (img, v) else p)).find? (fun p => p.1 == k)
      = store.find? (fun p => p.1 == k) := by
  induction store with
  | nil => rfl
  | cons p rest ih =>
    by_cases hp : (p.1 == img) = true
    · have hp1 : p.1 = img := by simpa using hp
      have hpk : (p.1 == k) = false := by rw [hp1]; exact himg
      simp only [List.map_cons, if_pos hp, List.find?_cons, himg, hpk]
      exact ih
    · simp only [List.map_cons, if_neg hp]
      by_cases hpk : (p.1 == k) = true
      · simp only [List.find?_cons, hpk]
      · simp only [Bool.not_eq_true] at hpk
        simp only [List.find?_cons, hpk]
        exact ih

theorem lookupStore_dictSet_ne (store : RawStore) (img k : String) (v : List MatchRecord)
    (h : k ≠ img) : lookupStore (dictSet store img v) k = lookupStore store k := by
  have himg : (img == k) = false := beq_eq_false_iff_ne.mpr (Ne.symm h)
  unfold dictSet
  by_cases ha : store.any (fun p => p.1 == img)
  · rw [if_pos ha, lookupStore, lookupStore, find?_map_replace store img k v himg]
  · rw [if_neg ha, lookupStore, lookupStore, List.find?_append]
    have : List.find? (fun p => p.1 == k) [(img, v)] = none := by
      simp [List.find?, himg]
    rw [this, Option.or_none]

/-- Claim C7: `parse_and_store_data` returns the accepted-row count, leaves
the store unchanged when no line matched, records the batch under the given
match id when at least one line matched, and modifies no other key. -/
theorem batch_storage (img data : String) (store : RawStore) :
    (parse_and_store_data img data store).2 = (parsedRecords data).length
    ∧ (parsedRecords data = [] → (parse_and_store_data img data store).1 = store)
    ∧ (parsedRecords data ≠ [] →
        (parse_and_store_data img data store).1 = dictSet store img (parsedRecords data))
    ∧ (∀ k, k ≠ img →
        lookupStore (parse_and_store_data img data store).1 k = lookupStore store k) := by
  refine ⟨rfl, ?_, ?_, ?_⟩
  · intro h
    simp [parse_and_store_data, h]
  · intro h
    have hne : (parsedRecords data).isEmpty = false := List.isEmpty_eq_false.mpr h
    simp [parse_and_store_data, hne]
  · intro k hk
    by_cases h : parsedRecords data = []
    · simp [parse_and_store_data, h]
    · have hne : (parsedRecords data).isEmpty = false := List.isEmpty_eq_false.mpr h
      simp only [parse_and_store_data, hne, Bool.false_eq_true, if_false]
      exact lookupStore_dictSet_ne store img k _ hk

/-- Witness for C7: one matching line and one noise line, stored into
`storeB` under a fresh match id, leaving the old key untouched. -/
theorem batch_storage_witness :
    parsedRecords "1 Alice 2 3 4 5 6\nnoise" = [⟨1, "Alice", 2, 3, 4, 5, 6⟩]
    ∧ (parse_and_store_data "5-a.png" "1 Alice 2 3 4 5 6\nnoise" storeB).2 = 1
    ∧ (parse_and_store_data "5-a.png" "1 Alice 2 3 4 5 6\nnoise" storeB).1
        = dictSet storeB "5-a.png" (parsedRecords "1 Alice 2 3 4 5 6\nnoise")
    ∧ lookupStore (parse_and_store_data "5-a.png" "1 Alice 2 3 4 5 6\nnoise" storeB).1 "1-a.png"
        = lookupStore storeB "1-a.png" := by
  refine ⟨by decide, ?_, ?_, ?_⟩
  · exact ((batch_storage "5-a.png" "1 Alice 2 3 4 5 6\nnoise" storeB).1).trans (by decide)
  · exact (batch_storage "5-a.png" "1 Alice 2 3 4 5 6\nnoise" storeB).2.2.1 (by decide)
  · exact (batch_storage "5-a.png" "1 Alice 2 3 4 5 6\nnoise" storeB).2.2.2 "1-a.png" (by decide)

/-! ### Soundness and completeness of the row matcher -/

theorem digit_not_space {c : Char} (h : isDigitChar c = true) : isSpaceChar c = false := by
  simp only [isDigitChar, Bool.and_eq_true, decide_eq_true_eq] at h
  simp only [isSpaceChar, Bool.or_eq_false_iff, decide_eq_false_iff_not]
  omega

theorem space_not_digit {c : Char} (h : isSpaceChar c = true) : isDigitChar c = false := by
  cases hd : isDigitChar c with
  | false => rfl
  | true =>
    exfalso
    simp only [isSpaceChar, Bool.or_eq_true, decide_eq_true_eq] at h
    simp only [isDigitChar, Bool.and_eq_true, decide_eq_true_eq] at hd
    omega

theorem takeWhile_append_all {p : Char → Bool} {a b : List Char}
    (ha : ∀ c ∈ a, p c = true) (hb : ∀ c, b.head? = some c → p c = false) :
    (a ++ b).takeWhile p = a ∧ (a ++ b).dropWhile p = b := by
  induction a with
  | nil =>
    simp only [List.nil_append]
    cases b with
    | nil => simp
    | cons c cs =>
      have hc := hb c rfl
      simp [List.takeWhile_cons, List.dropWhile_cons, hc]
  | cons x xs ih =>
    have hx : p x = true := ha x (by simp)
    have ihr := ih (fun c hc => ha c (by simp [hc]))
    simp [List.takeWhile_cons, List.dropWhile_cons, hx, ihr.1, ihr.2]

theorem parseNumTok_sound {cs ds r2 : List Char} (h : parseNumTok cs = some (ds, r2)) :
    ∃ sp, cs = sp ++ ds ++ r2 ∧ sp ≠ [] ∧ AllSpace sp ∧ ds ≠ [] ∧ AllDigit ds := by
  simp only [parseNumTok] at h
  split at h
  · exact absurd h (by simp)
  · rename_i hcond
    simp only [Bool.or_eq_true, not_or] at hcond
    obtain ⟨hsp, hds⟩ := hcond
    simp only [Option.some.injEq, Prod.mk.injEq] at h
    obtain ⟨hds2, hr2⟩ := h
    refine ⟨cs.takeWhile isSpaceChar, ?_, ?_, ?_, ?_, ?_⟩
    · rw [← hds2, ← hr2, List.append_assoc, List.takeWhile_append_dropWhile,
        List.takeWhile_append_dropWhile]
    · simpa [List.isEmpty_eq_false] using hsp
    · exact fun c hc => List.mem_takeWhile_imp hc
    · rw [← hds2]
      simpa [List.isEmpty_eq_false] using hds
    · rw [← hds2]
      exact fun c hc => List.mem_takeWhile_imp hc

theorem head_append_all_false {p q : Char → Bool} {s x : List Char} (hs : s ≠ [])
    (has : ∀ c ∈ s, p c = true) (hpq : ∀ c, p c = true → q c = false) :
    ∀ c, (s ++ x).head? = some c → q c = false := by
  intro c hc
  cases s with
  | nil => exact absurd rfl hs
  | cons a s' =>
    simp only [List.cons_append, List.head?_cons, Option.some.injEq] at hc
    exact hc ▸ hpq a (has a (by simp))

theorem parseNumTok_exact {sp ds rest : List Char} (hsp : sp ≠ []) (hsps : AllSpace sp)
    (hds : ds ≠ []) (hdsd : AllDigit ds)
    (hr : ∀ c, rest.head? = some c → isDigitChar c = false) :
    parseNumTok (sp ++ (ds ++ rest)) = some (ds, rest) := by
  have hb : ∀ c, (ds ++ rest).head? = some c → isSpaceChar c = false :=
    head_append_all_false hds hdsd (fun _ h => digit_not_space h)
  have h1 := takeWhile_append_all hsps hb
  have h2 := takeWhile_append_all hdsd hr
  simp only [parseNumTok, h1.1, h1.2, h2.1, h2.2, List.isEmpty_eq_false.mpr hsp,
    List.isEmpty_eq_false.mpr hds, Bool.or_self, Bool.false_eq_true, if_false]

theorem parseNumTok_some {sp ds rest : List Char} (hsp : sp ≠ []) (hsps : AllSpace sp)
    (hds : ds ≠ []) (hdsd : AllDigit ds) :
    (parseNumTok (sp ++ (ds ++ rest))).isSome := by
  have hb : ∀ c, (ds ++ rest).head? = some c → isSpaceChar c = false :=
    head_append_all_false hds hdsd (fun _ h => digit_not_space h)
  have h1 := takeWhile_append_all hsps hb
  cases ds with
  | nil => exact absurd rfl hds
  | cons d ds' =>
    have hd : isDigitChar d = true := hdsd d (by simp)
    have htk : List.takeWhile isDigitChar ((d :: ds') ++ rest)
        = d :: List.takeWhile isDigitChar (ds' ++ rest) := by
      rw [List.cons_append, List.takeWhile_cons, if_pos hd]
    simp only [parseNumTok, h1.1, h1.2, htk, List.isEmpty_eq_false.mpr hsp,
      List.isEmpty_cons, Bool.or_self, Bool.false_eq_true, if_false, Option.isSome_some]

theorem parseTail5_sound {cs d1 d2 d3 d4 d5 : List Char}
    (h : parseTail5 cs = some (d1, d2, d3, d4, d5)) : TailShapeAt cs d1 d2 d3 d4 d5 := by
  cases h1 : parseNumTok cs with
  | none => rw [parseTail5, h1] at h; exact absurd h (by simp)
  | some v1 =>
  obtain ⟨e1, r1⟩ := v1
  cases h2 : parseNumTok r1 with
  | none =>
    simp only [parseTail5, h1, h2] at h
    exact absurd h (by simp)
  | some v2 =>
  obtain ⟨e2, r2⟩ := v2
  cases h3 : parseNumTok r2 with
  | none =>
    simp only [parseTail5, h1, h2, h3] at h
    exact absurd h (by simp)
  | some v3 =>
  obtain ⟨e3, r3⟩ := v3
  cases h4 : parseNumTok r3 with
  | none =>
    simp only [parseTail5, h1, h2, h3, h4] at h
    exact absurd h (by simp)
  | some v4 =>
  obtain ⟨e4, r4⟩ := v4
  cases h5 : parseNumTok r4 with
  | none =>
    simp only [parseTail5, h1, h2, h3, h4, h5] at h
    exact absurd h (by simp)
  | some v5 =>
  obtain ⟨e5, r5⟩ := v5
  simp only [parseTail5, h1, h2, h3, h4, h5, Option.some.injEq, Prod.mk.injEq] at h
  obtain ⟨q1, q2, q3, q4, q5⟩ := h
  subst q1 q2 q3 q4 q5
  obtain ⟨s2, hcs, hs2, has2, hd1, had1⟩ := parseNumTok_sound h1
  obtain ⟨s3, hr1, hs3, has3, hd2, had2⟩ := parseNumTok_sound h2
  obtain ⟨s4, hr2, hs4, has4, hd3, had3⟩ := parseNumTok_sound h3
  obtain ⟨s5, hr3, hs5, has5, hd4, had4⟩ := parseNumTok_sound h4
  obtain ⟨s6, hr4, hs6, has6, hd5, had5⟩ := parseNumTok_sound h5
  refine ⟨s2, s3, s4, s5, s6, r5, ?_, hs2, has2, hd1, had1, hs3, has3, hd2, had2,
    hs4, has4, hd3, had3, hs5, has5, hd4, had4, hs6, has6, hd5, had5⟩
  rw [hcs, hr1, hr2, hr3, hr4]
  simp [List.append_assoc]

theorem parseTail5_some {cs d1 d2 d3 d4 d5 : List Char}
    (h : TailShapeAt cs d1 d2 d3 d4 d5) : (parseTail5 cs).isSome := by
  obtain ⟨s2, s3, s4, s5, s6, rest, heq, hs2, has2, hd1, had1, hs3, has3, hd2, had2,
    hs4, has4, hd3, had3, hs5, has5, hd4, had4, hs6, has6, hd5, had5⟩ := h
  have e : cs = s2 ++ (d1 ++ (s3 ++ (d2 ++ (s4 ++ (d3 ++ (s5 ++ (d4 ++ (s6 ++ (d5 ++ rest)))))))))
      := by rw [heq]; simp [List.append_assoc]
  have t1 : parseNumTok (s2 ++ (d1 ++ (s3 ++ (d2 ++ (s4 ++ (d3 ++ (s5 ++ (d4 ++ (s6 ++ (d5 ++ rest))))))))))
      = some (d1, s3 ++ (d2 ++ (s4 ++ (d3 ++ (s5 ++ (d4 ++ (s6 ++ (d5 ++ rest)))))))) :=
    parseNumTok_exact hs2 has2 hd1 had1
      (head_append_all_false hs3 has3 (fun _ h => space_not_digit h))
  have t2 : parseNumTok (s3 ++ (d2 ++ (s4 ++ (d3 ++ (s5 ++ (d4 ++ (s6 ++ (d5 ++ rest))))))))
      = some (d2, s4 ++ (d3 ++ (s5 ++ (d4 ++ (s6 ++ (d5 ++ rest)))))) :=
    parseNumTok_exact hs3 has3 hd2 had2
      (head_append_all_false hs4 has4 (fun _ h => space_not_digit h))
  have t3 : parseNumTok (s4 ++ (d3 ++ (s5 ++ (d4 ++ (s6 ++ (d5 ++ rest))))))
      = some (d3, s5 ++ (d4 ++ (s6 ++ (d5 ++ rest)))) :=
    parseNumTok_exact hs4 has4 hd3 had3
      (head_append_all_false hs5 has5 (fun _ h => space_not_digit h))
  have t4 : parseNumTok (s5 ++ (d4 ++ (s6 ++ (d5 ++ rest))))
      = some (d4, s6 ++ (d5 ++ rest)) :=
    parseNumTok_exact hs5 has5 hd4 had4
      (head_append_all_false hs6 has6 (fun _ h => space_not_digit h))
  have t5 : (parseNumTok (s6 ++ (d5 ++ rest))).isSome :=
    parseNumTok_some hs6 has6 hd5 had5
  obtain ⟨v5, hv5⟩ := Option.isSome_iff_exists.mp t5
  obtain ⟨e5, r5⟩ := v5
  rw [e]
  simp only [parseTail5, t1, t2, t3, t4, hv5, Option.isSome_some]

theorem findName_sound :
    ∀ (cs acc nm : List Char)
      (t : List Char × List Char × List Char × List Char × List Char),
      findName acc cs = some (nm, t) →
      ∃ nmSuf tail, nm = acc ++ nmSuf ∧ cs = nmSuf ++ tail ∧ nmSuf ≠ [] ∧ AllName nmSuf ∧
        parseTail5 tail = some t := by
  intro cs
  induction cs with
  | nil => intro acc nm t h; exact absurd h (by simp [findName])
  | cons c rest ih =>
    intro acc nm t h
    by_cases hc : isNameChar c = true
    · simp only [findName, if_pos hc] at h
      cases hp : parseTail5 rest with
      | some t' =>
        rw [hp] at h
        simp only [Option.some.injEq, Prod.mk.injEq] at h
        obtain ⟨h1, h2⟩ := h
        subst h2
        refine ⟨[c], rest, h1.symm, rfl, by simp, ?_, hp⟩
        intro x hx
        simp only [List.mem_singleton] at hx
        exact hx ▸ hc
      | none =>
        rw [hp] at h
        obtain ⟨nmSuf, tail, hnm, hcs, hne, hall, hpt⟩ := ih (acc ++ [c]) nm t h
        refine ⟨c :: nmSuf, tail, by simp [hnm], by simp [hcs], by simp, ?_, hpt⟩
        intro x hx
        rcases List.mem_cons.mp hx with hx' | hx'
        · exact hx' ▸ hc
        · exact hall x hx'
    · simp only [findName, if_neg hc] at h
      exact absurd h (by simp)

theorem findName_some :
    ∀ (pre suf acc : List Char), pre ≠ [] → AllName pre →
      (parseTail5 suf).isSome → (findName acc (pre ++ suf)).isSome := by
  intro pre
  induction pre with
  | nil => intro suf acc hne _ _; exact absurd rfl hne
  | cons c pre' ih =>
    intro suf acc _ hall hsome
    have hc : isNameChar c = true := hall c (by simp)
    cases hp : parseTail5 (pre' ++ suf) with
    | some t => simp [findName, hc, hp]
    | none =>
      cases pre' with
      | nil =>
        rw [List.nil_append] at hp
        rw [Option.isSome_iff_exists] at hsome
        obtain ⟨v, hv⟩ := hsome
        rw [hv] at hp
        exact absurd hp (by simp)
      | cons d pre'' =>
        have hrec := ih suf (acc ++ [c]) (by simp) (fun x hx => hall x (by simp [hx])) hsome
        rw [List.cons_append] at hp
        simp only [List.cons_append, findName, if_pos hc, hp, List.append_eq]
        simp only [findName, List.append_eq] at hrec
        exact hrec

theorem spaceSearch_sound :
    ∀ (j : Nat) (r nm : List Char)
      (t : List Char × List Char × List Char × List Char × List Char),
      spaceSearch j r = some (nm, t) →
      ∃ i, 1 ≤ i ∧ i ≤ j ∧ findName [] (r.drop i) = some (nm, t) := by
  intro j
  induction j with
  | zero => intro r nm t h; exact absurd h (by simp [spaceSearch])
  | succ j' ih =>
    intro r nm t h
    cases hf : findName [] (r.drop (j' + 1)) with
    | some res =>
      simp only [spaceSearch, hf] at h
      exact ⟨j' + 1, by omega, le_refl _, hf.trans h⟩
    | none =>
      simp only [spaceSearch, hf] at h
      obtain ⟨i, h1, h2, h3⟩ := ih r nm t h
      exact ⟨i, h1, by omega, h3⟩

theorem spaceSearch_some :
    ∀ (j : Nat) (r : List Char),
      (∃ i, 1 ≤ i ∧ i ≤ j ∧ (findName [] (r.drop i)).isSome) →
      (spaceSearch j r).isSome := by
  intro j
  induction j with
  | zero => intro r ⟨i, h1, h2, _⟩; omega
  | succ j' ih =>
    intro r ⟨i, h1, h2, h3⟩
    cases hf : findName [] (r.drop (j' + 1)) with
    | some res => simp [spaceSearch, hf]
    | none =>
      by_cases hij : i = j' + 1
      · rw [hij] at h3
        rw [hf] at h3
        exact absurd h3 (by simp)
      · have : i ≤ j' := by omega
        have := ih r ⟨i, h1, this, h3⟩
        simp only [spaceSearch, hf]
        exact this

theorem le_length_takeWhile {p : Char → Bool} {a b : List Char} (ha : ∀ c ∈ a, p c = true) :
    a.length ≤ ((a ++ b).takeWhile p).length := by
  induction a with
  | nil => simp
  | cons x xs ih =>
    have hx := ha x (by simp)
    simp only [List.cons_append, List.takeWhile_cons, if_pos hx, List.length_cons]
    exact Nat.succ_le_succ (ih (fun c hc => ha c (by simp [hc])))

theorem matchRow_sound {cs g1 nm d1 d2 d3 d4 d5 : List Char}
    (h : matchRow cs = some (g1, nm, d1, d2, d3, d4, d5)) :
    RowShapeAt cs g1 nm d1 d2 d3 d4 d5 := by
  simp only [matchRow] at h
  by_cases hE : ((cs.dropWhile isSpaceChar).takeWhile isDigitChar).isEmpty
  · rw [if_pos hE] at h
    exact absurd h (by simp)
  · rw [if_neg hE] at h
    cases hss : spaceSearch
        (((cs.dropWhile isSpaceChar).dropWhile isDigitChar).takeWhile isSpaceChar).length
        ((cs.dropWhile isSpaceChar).dropWhile isDigitChar) with
    | none => rw [hss] at h; exact absurd h (by simp)
    | some v =>
      obtain ⟨nm', t1, t2, t3, t4, t5⟩ := v
      rw [hss] at h
      simp only [Option.some.injEq, Prod.mk.injEq] at h
      obtain ⟨hq1, hq2, hq3, hq4, hq5, hq6, hq7⟩ := h
      subst hq1 hq2 hq3 hq4 hq5 hq6 hq7
      obtain ⟨i, hi1, hi2, hfn⟩ := spaceSearch_sound _ _ _ _ hss
      obtain ⟨nmSuf, tail, hnm, hsplit, hnmne, hnmall, hpt5⟩ := findName_sound _ _ _ _ hfn
      rw [List.nil_append] at hnm
      subst hnm
      have hm_le : (((cs.dropWhile isSpaceChar).dropWhile isDigitChar).takeWhile
          isSpaceChar).length ≤ ((cs.dropWhile isSpaceChar).dropWhile isDigitChar).length :=
        (List.takeWhile_sublist _).length_le
      have hi_le : i ≤ ((cs.dropWhile isSpaceChar).dropWhile isDigitChar).length :=
        le_trans hi2 hm_le
      refine ⟨cs.takeWhile isSpaceChar,
        ((cs.dropWhile isSpaceChar).dropWhile isDigitChar).take i, tail, ?_,
        fun c hc => List.mem_takeWhile_imp hc,
        List.isEmpty_eq_false.mp (by simpa using hE),
        fun c hc => List.mem_takeWhile_imp hc, ?_, ?_, hnmne, hnmall,
        parseTail5_sound hpt5⟩
      · conv_lhs => rw [← List.takeWhile_append_dropWhile isSpaceChar cs]
        conv_lhs =>
          rw [← List.takeWhile_append_dropWhile isDigitChar (cs.dropWhile isSpaceChar)]
        conv_lhs =>
          rw [← List.take_append_drop i ((cs.dropWhile isSpaceChar).dropWhile isDigitChar)]
        rw [hsplit]
        simp [List.append_assoc]
      · apply List.ne_nil_of_length_pos
        rw [List.length_take]
        omega
      · intro c hc
        have htake : ((cs.dropWhile isSpaceChar).dropWhile isDigitChar).take i
            = (((cs.dropWhile isSpaceChar).dropWhile isDigitChar).takeWhile
                isSpaceChar).take i := by
          conv_lhs =>
            rw [← List.takeWhile_append_dropWhile isSpaceChar
              ((cs.dropWhile isSpaceChar).dropWhile isDigitChar)]
          rw [List.take_append_of_le_length hi2]
        rw [htake] at hc
        exact List.mem_takeWhile_imp (List.take_subset i _ hc)

theorem matchRow_some {cs : List Char} (h : RowShape cs) : (matchRow cs).isSome := by
  obtain ⟨g1, nm, d1, d2, d3, d4, d5, s0, s1, tail, heq, has0, hg1ne, hg1d, hs1ne, hs1s,
    hnmne, hnma, htail⟩ := h
  have e : cs = s0 ++ (g1 ++ (s1 ++ (nm ++ tail))) := by
    rw [heq]; simp [List.append_assoc]
  have h1 : (s0 ++ (g1 ++ (s1 ++ (nm ++ tail)))).takeWhile isSpaceChar = s0
      ∧ (s0 ++ (g1 ++ (s1 ++ (nm ++ tail)))).dropWhile isSpaceChar
        = g1 ++ (s1 ++ (nm ++ tail)) :=
    takeWhile_append_all has0
      (head_append_all_false hg1ne hg1d (fun _ hx => digit_not_space hx))
  have h2 : (g1 ++ (s1 ++ (nm ++ tail))).takeWhile isDigitChar = g1
      ∧ (g1 ++ (s1 ++ (nm ++ tail))).dropWhile isDigitChar = s1 ++ (nm ++ tail) :=
    takeWhile_append_all hg1d
      (head_append_all_false hs1ne hs1s (fun _ hx => space_not_digit hx))
  rw [e]
  simp only [matchRow, h1.1, h1.2, h2.1, h2.2, List.isEmpty_eq_false.mpr hg1ne,
    Bool.false_eq_true, if_false]
  have hfn : (findName [] ((s1 ++ (nm ++ tail)).drop s1.length)).isSome := by
    rw [List.drop_left]
    exact findName_some nm tail [] hnmne hnma (parseTail5_some htail)
  have hss : (spaceSearch ((s1 ++ (nm ++ tail)).takeWhile isSpaceChar).length
      (s1 ++ (nm ++ tail))).isSome :=
    spaceSearch_some _ _ ⟨s1.length, List.length_pos.mpr hs1ne, le_length_takeWhile hs1s, hfn⟩
  obtain ⟨v, hv⟩ := Option.isSome_iff_exists.mp hss
  obtain ⟨nm', t1, t2, t3, t4, t5⟩ := v
  rw [hv]
  simp

/-- Claim C6: a line parses to a record exactly when it matches the regex
shape; the record's numeric fields are the integer values of the matched
digit groups and its nickname is the matched name group with surrounding
whitespace stripped; every non-matching line yields no record (and parsing
is total, so no error is possible). -/
theorem row_parsing (line : String) :
    (RowShape (trimChars line.data) ↔ (parseLine line).isSome)
    ∧ (∀ g1 nm d1 d2 d3 d4 d5 : List Char,
        matchRow (trimChars line.data) = some (g1, nm, d1, d2, d3, d4, d5) →
        RowShapeAt (trimChars line.data) g1 nm d1 d2 d3 d4 d5
        ∧ parseLine line = some ⟨natDigits g1, String.mk (trimChars nm), natDigits d1,
            natDigits d2, natDigits d3, natDigits d4, natDigits d5⟩) := by
  constructor
  · constructor
    · intro h
      have hs := matchRow_some h
      obtain ⟨v, hv⟩ := Option.isSome_iff_exists.mp hs
      obtain ⟨g1, nm, d1, d2, d3, d4, d5⟩ := v
      simp [parseLine, hv]
    · intro h
      rw [Option.isSome_iff_exists] at h
      obtain ⟨r, hr⟩ := h
      cases hm : matchRow (trimChars line.data) with
      | none =>
        rw [parseLine, hm] at hr
        exact absurd hr (by simp)
      | some v =>
        obtain ⟨g1, nm, d1, d2, d3, d4, d5⟩ := v
        exact ⟨g1, nm, d1, d2, d3, d4, d5, matchRow_sound hm⟩
  · intro g1 nm d1 d2 d3 d4 d5 hm
    exact ⟨matchRow_sound hm, by simp [parseLine, hm]⟩

/-- Witness for C6: a concrete valid row, with its matched groups, and a
concrete malformed line. -/
theorem row_parsing_witness :
    matchRow (trimChars "1 Alice 2 3 4 5 6".data)
      = some ("1".data, "Alice".data, "2".data, "3".data, "4".data, "5".data, "6".data)
    ∧ RowShapeAt (trimChars "1 Alice 2 3 4 5 6".data) "1".data "Alice".data "2".data
        "3".data "4".data "5".data "6".data
    ∧ parseLine "1 Alice 2 3 4 5 6" = some ⟨1, "Alice", 2, 3, 4, 5, 6⟩
    ∧ parseLine "junk" = none
    ∧ ¬ RowShape (trimChars "junk".data) := by
  have hm : matchRow (trimChars "1 Alice 2 3 4 5 6".data)
      = some ("1".data, "Alice".data, "2".data, "3".data, "4".data, "5".data, "6".data) := by
    rfl
  have h := (row_parsing "1 Alice 2 3 4 5 6").2 _ _ _ _ _ _ _ hm
  have hj : parseLine "junk" = none := by rfl
  refine ⟨hm, h.1, h.2.trans (by rfl), hj, fun hshape => ?_⟩
  have hcontra := (row_parsing "junk").1.mp hshape
  rw [hj] at hcontra
  simp at hcontra
